import Mathlib

/-!
Verification of the `HiddenOutcomeGame` contract
(`src/contracts/HiddenOutcomeGame.sol`).

The contract stores, per player address, an encrypted 32-bit balance, an
encrypted 8-bit health, a `joined` flag and three plaintext `uint64`
counters.  We model each ciphertext by its decoded value (a `Nat`, kept
below `2^w` by the operations) together with the two access-control flags
the contract can grant on the handle: permission for the contract itself
(`FHE.allowThis`) and permission for the calling player (`FHE.allow`).
Homomorphic arithmetic on `euintN` wraps modulo `2^N`, which the model
makes explicit; every freshly produced handle starts with no permissions,
matching the fact that each FHE operation returns a new ciphertext handle.
The randomness source `_random` (a hash of chain state) is treated as an
oracle: `fightMonster` takes the drawn scalar as an argument.  The
`uint64` counters are modelled as unbounded naturals: their checked
overflow would need `2^64` sequential transactions to be triggered and is
not modelled.  A reverting call (a failed `require`) is modelled by
`Except.error`, and `execOp` keeps the pre-state in that case, matching
transaction semantics.
-/

namespace HiddenOutcomeGame

/-- Decoded model of an FHE ciphertext of width `w`: the decoded value and
the two permissions that can be granted on the current handle. -/
structure EUint (w : Nat) where
  val : Nat
  allowedThis : Bool
  allowedSender : Bool
  deriving Repr, DecidableEq

namespace FHE

/-- Model of `FHE.asEuint32`: a trivial encryption of a plaintext constant. -/
def asEuint32 (n : Nat) : EUint 32 := ⟨n % 2 ^ 32, false, false⟩

/-- Model of `FHE.asEuint8`. -/
def asEuint8 (n : Nat) : EUint 8 := ⟨n % 2 ^ 8, false, false⟩

/-- Homomorphic addition, wrapping modulo `2^w`. -/
def add {w : Nat} (a b : EUint w) : EUint w := ⟨(a.val + b.val) % 2 ^ w, false, false⟩

/-- Homomorphic subtraction, wrapping modulo `2^w`. -/
def sub {w : Nat} (a b : EUint w) : EUint w := ⟨(a.val + 2 ^ w - b.val) % 2 ^ w, false, false⟩

/-- Homomorphic strict comparison `a < b` (the decoded boolean). -/
def lt {w : Nat} (a b : EUint w) : Bool := decide (a.val < b.val)

/-- Homomorphic comparison `a <= b`. -/
def le {w : Nat} (a b : EUint w) : Bool := decide (a.val ≤ b.val)

/-- Homomorphic strict comparison `a > b`. -/
def gt {w : Nat} (a b : EUint w) : Bool := decide (b.val < a.val)

/-- Homomorphic comparison `a >= b`. -/
def ge {w : Nat} (a b : EUint w) : Bool := decide (b.val ≤ a.val)

/-- Homomorphic boolean conjunction on `ebool`. -/
def and (a b : Bool) : Bool := a && b

/-- Homomorphic conditional select: `c ? a : b`, producing a fresh handle. -/
def select {w : Nat} (c : Bool) (a b : EUint w) : EUint w :=
  ⟨if c then a.val else b.val, false, false⟩

/-- Model of `FHE.allowThis`: grant the contract permission on the handle. -/
def allowThis {w : Nat} (a : EUint w) : EUint w := { a with allowedThis := true }

/-- Model of `FHE.allow(·, msg.sender)`: grant the caller permission. -/
def allow {w : Nat} (a : EUint w) : EUint w := { a with allowedSender := true }

end FHE

/-- Contract constant `STARTING_COINS`. -/
def STARTING_COINS : Nat := 1000

/-- Contract constant `MIN_REWARD`. -/
def MIN_REWARD : Nat := 10

/-- Contract constant `REWARD_SPREAD` (rewards span 10..100 inclusive). -/
def REWARD_SPREAD : Nat := 91

/-- Contract constant `HEAL_COST`. -/
def HEAL_COST : Nat := 10

/-- Contract constant `MAX_HEALTH`. -/
def MAX_HEALTH : Nat := 10

/-- Contract constant `DAMAGE`. -/
def DAMAGE : Nat := 1

/-- The `Player` struct: encrypted balance and health, the join flag and
the three plaintext counters. -/
structure Player where
  balance : EUint 32
  health : EUint 8
  joined : Bool
  battles : Nat
  victories : Nat
  heals : Nat
  deriving Repr, DecidableEq

/-- The default record a Solidity mapping yields before any write. -/
def emptyPlayer : Player :=
  { balance := ⟨0, false, false⟩, health := ⟨0, false, false⟩, joined := false
    battles := 0, victories := 0, heals := 0 }

/-- The three `require` failures of the contract, named as in the spec:
`"Already joined"`, `"Join first"` and `"Player not found"`. -/
inductive GameError where
  | AlreadyJoined
  | NotJoined
  | PlayerNotFound
  deriving Repr, DecidableEq

/-- Private helper `_allowPlayer`: regrant contract and caller permissions
on both ciphertexts. -/
def allowPlayer (p : Player) : Player :=
  { p with
    balance := FHE.allow (FHE.allowThis p.balance)
    health := FHE.allow (FHE.allowThis p.health) }

/-- Private helper `_reduceHealth`: clamped subtraction, floored at 0. -/
def reduceHealth (health damage : EUint 8) : EUint 8 :=
  let below := FHE.le health damage
  FHE.select below (FHE.asEuint8 0) (FHE.sub health damage)

/-- Private helper `_clampHealth`: clamp above at `MAX_HEALTH`. -/
def clampHealth (health : EUint 8) : EUint 8 :=
  let over := FHE.gt health (FHE.asEuint8 MAX_HEALTH)
  FHE.select over (FHE.asEuint8 MAX_HEALTH) health

/-- `joinGame`: requires not yet joined, then initialises the record and
regrants permissions. -/
def joinGame (p : Player) : Except GameError Player :=
  if p.joined then .error .AlreadyJoined
  else
    .ok (allowPlayer
      { p with
        joined := true
        balance := FHE.asEuint32 STARTING_COINS
        health := FHE.asEuint8 MAX_HEALTH
        battles := 0, victories := 0, heals := 0 })

/-- `fightMonster`: requires joined; the scalar drawn by `_random` is
passed in as `rand`.  Returns the new record together with the
`MonsterFought` event payload `(victory, reward)`. -/
def fightMonster (p : Player) (rand : Nat) : Except GameError (Player × Bool × Nat) :=
  if !p.joined then .error .NotJoined
  else
    let victory := rand % 2 == 0
    let reward := if victory then rand % REWARD_SPREAD + MIN_REWARD else 0
    let p1 :=
      if victory then
        { p with
          balance := FHE.add p.balance (FHE.asEuint32 reward)
          victories := p.victories + 1 }
      else
        { p with health := reduceHealth p.health (FHE.asEuint8 DAMAGE) }
    let p2 := { p1 with battles := p1.battles + 1 }
    .ok (allowPlayer p2, victory, reward)

/-- `heal`: requires joined; computes the encrypted predicate
`canHeal = (health < MAX_HEALTH) && (balance >= HEAL_COST)` and applies
the tentative healed values by conditional select. -/
def heal (p : Player) : Except GameError Player :=
  if !p.joined then .error .NotJoined
  else
    let hasHealthRoom := FHE.lt p.health (FHE.asEuint8 MAX_HEALTH)
    let hasCoins := FHE.ge p.balance (FHE.asEuint32 HEAL_COST)
    let canHeal := FHE.and hasHealthRoom hasCoins
    let healedHealth := clampHealth (FHE.add p.health (FHE.asEuint8 1))
    let p1 := { p with health := FHE.select canHeal healedHealth p.health }
    let p2 := { p1 with
      balance := FHE.select canHeal (FHE.sub p1.balance (FHE.asEuint32 HEAL_COST)) p1.balance }
    let p3 := { p2 with heals := p2.heals + 1 }
    .ok (allowPlayer p3)

/-- View `getEncryptedBalance`: requires joined. -/
def getEncryptedBalance (p : Player) : Except GameError (EUint 32) :=
  if p.joined then .ok p.balance else .error .PlayerNotFound

/-- View `getEncryptedHealth`: requires joined. -/
def getEncryptedHealth (p : Player) : Except GameError (EUint 8) :=
  if p.joined then .ok p.health else .error .PlayerNotFound

/-- View `getPlayerStats`: requires joined; returns the three counters. -/
def getPlayerStats (p : Player) : Except GameError (Nat × Nat × Nat) :=
  if p.joined then .ok (p.battles, p.victories, p.heals) else .error .PlayerNotFound

/-- View `hasJoined`: no precondition. -/
def hasJoined (p : Player) : Bool := p.joined

/-- One state-mutating entry point of the contract; the `fight` case
carries the scalar the randomizer draws for the call. -/
inductive Op where
  | join
  | fight (rand : Nat)
  | heal
  deriving Repr, DecidableEq

/-- The state transition of one transaction, discarding the event. -/
def stepOp (p : Player) (op : Op) : Except GameError Player :=
  match op with
  | .join => joinGame p
  | .fight rand => (fightMonster p rand).map (·.1)
  | .heal => heal p

/-- Ledger semantics of one transaction: a reverting call leaves the
record unchanged. -/
def execOp (p : Player) (op : Op) : Player :=
  match stepOp p op with
  | .ok p' => p'
  | .error _ => p

/-- Execute a sequence of transactions on a record. -/
def execOps (p : Player) (ops : List Op) : Player := ops.foldl execOp p

/-- A record state is reachable when some sequence of transactions takes
the default mapping value to it. -/
def Reachable (p : Player) : Prop := ∃ ops : List Op, execOps emptyPlayer ops = p

/-- A concrete freshly joined record, as produced by `joinGame` on the
default mapping value. -/
def joinedPlayer : Player :=
  { balance := ⟨1000, true, true⟩, health := ⟨10, true, true⟩, joined := true
    battles := 0, victories := 0, heals := 0 }

lemma joinGame_emptyPlayer : joinGame emptyPlayer = .ok joinedPlayer := rfl

/-- Full characterisation of a successful `heal` call. -/
lemma heal_char (p : Player) (hj : p.joined = true) (hb : p.balance.val < 2 ^ 32) :
    ∃ p', heal p = .ok p' ∧ p'.heals = p.heals + 1 ∧ p'.joined = true ∧
      p'.battles = p.battles ∧ p'.victories = p.victories ∧
      ((p.health.val < 10 ∧ 10 ≤ p.balance.val ∧
          p'.balance.val = p.balance.val - 10 ∧ p'.health.val = p.health.val + 1) ∨
       (¬(p.health.val < 10 ∧ 10 ≤ p.balance.val) ∧
          p'.balance.val = p.balance.val ∧ p'.health.val = p.health.val)) := by
  unfold heal
  rw [hj]
  simp only [Bool.not_true, Bool.false_eq_true, if_false]
  refine ⟨_, rfl, ?_⟩
  simp only [allowPlayer, FHE.allow, FHE.allowThis, FHE.select, FHE.and, FHE.lt, FHE.ge,
    FHE.add, FHE.sub, FHE.asEuint8, FHE.asEuint32, clampHealth, FHE.gt,
    MAX_HEALTH, HEAL_COST]
  by_cases hh : p.health.val < 10 <;> by_cases hc : 10 ≤ p.balance.val <;>
    simp [hh, hc] <;> (try split_ifs) <;> omega

/-- C1: `heal` always succeeds for a joined player and increments `heals`
by exactly 1; when decoded health < 10 and decoded balance ≥ 10 the
balance drops by the heal cost and health rises by 1 (clamped at 10);
otherwise the decoded balance and health are unchanged — the no-op comes
from the encrypted select, not from a revert. -/
theorem heal_spec (p : Player) (hj : p.joined = true) (hb : p.balance.val < 2 ^ 32) :
    ∃ p', heal p = .ok p' ∧
      p'.heals = p.heals + 1 ∧
      p'.joined = true ∧ p'.battles = p.battles ∧ p'.victories = p.victories ∧
      (p.health.val < MAX_HEALTH ∧ HEAL_COST ≤ p.balance.val →
        p'.balance.val = p.balance.val - HEAL_COST ∧
        p'.health.val = min (p.health.val + 1) MAX_HEALTH) ∧
      (¬(p.health.val < MAX_HEALTH ∧ HEAL_COST ≤ p.balance.val) →
        p'.balance.val = p.balance.val ∧ p'.health.val = p.health.val) := by
  obtain ⟨p', hcall, h1, h2, h3, h4, h5⟩ := heal_char p hj hb
  refine ⟨p', hcall, h1, h2, h3, h4, ?_, ?_⟩
  · intro h
    simp only [MAX_HEALTH, HEAL_COST] at h ⊢
    rcases h5 with ⟨a, b, c, d⟩ | ⟨a, b, c⟩
    · exact ⟨c, by omega⟩
    · exact absurd h a
  · intro h
    simp only [MAX_HEALTH, HEAL_COST] at h ⊢
    rcases h5 with ⟨a, b, c, d⟩ | ⟨a, b, c⟩
    · exact absurd ⟨a, b⟩ h
    · exact ⟨b, c⟩

/-- Witness for C1 at a concrete joined record. -/
theorem heal_spec_witness :
    ∃ p', heal joinedPlayer = .ok p' ∧
      p'.heals = joinedPlayer.heals + 1 ∧
      p'.joined = true ∧ p'.battles = joinedPlayer.battles ∧
      p'.victories = joinedPlayer.victories ∧
      (joinedPlayer.health.val < MAX_HEALTH ∧ HEAL_COST ≤ joinedPlayer.balance.val →
        p'.balance.val = joinedPlayer.balance.val - HEAL_COST ∧
        p'.health.val = min (joinedPlayer.health.val + 1) MAX_HEALTH) ∧
      (¬(joinedPlayer.health.val < MAX_HEALTH ∧ HEAL_COST ≤ joinedPlayer.balance.val) →
        p'.balance.val = joinedPlayer.balance.val ∧
        p'.health.val = joinedPlayer.health.val) :=
  heal_spec joinedPlayer rfl (by decide)

/-- C4: `joinGame` on a record with `joined = false` succeeds and
initialises the record: decoded balance 1000, decoded health 10 and all
three counters 0. -/
theorem joinGame_spec (p : Player) (h : p.joined = false) :
    ∃ p', joinGame p = .ok p' ∧ p'.joined = true ∧
      p'.balance.val = STARTING_COINS ∧ p'.health.val = MAX_HEALTH ∧
      p'.battles = 0 ∧ p'.victories = 0 ∧ p'.heals = 0 := by
  unfold joinGame
  rw [h]
  simp only [Bool.false_eq_true, if_false]
  exact ⟨_, rfl, rfl, by decide, by decide, rfl, rfl, rfl⟩

/-- Witness for C4 at the default record. -/
theorem joinGame_spec_witness :
    ∃ p', joinGame emptyPlayer = .ok p' ∧ p'.joined = true ∧
      p'.balance.val = STARTING_COINS ∧ p'.health.val = MAX_HEALTH ∧
      p'.battles = 0 ∧ p'.victories = 0 ∧ p'.heals = 0 :=
  joinGame_spec emptyPlayer rfl

/-- C5: every precondition violation fails with its distinct error and
leaves the record unchanged under transaction semantics: `joinGame` on a
joined record fails with `AlreadyJoined`; `fightMonster` and `heal` on an
unjoined record fail with `NotJoined`; the three view functions on an
unjoined record fail with `PlayerNotFound`. -/
theorem precondition_failures (p : Player) (rand : Nat) :
    (p.joined = true →
      joinGame p = .error .AlreadyJoined ∧ execOp p .join = p) ∧
    (p.joined = false →
      fightMonster p rand = .error .NotJoined ∧ heal p = .error .NotJoined ∧
      execOp p (.fight rand) = p ∧ execOp p .heal = p ∧
      getEncryptedBalance p = .error .PlayerNotFound ∧
      getEncryptedHealth p = .error .PlayerNotFound ∧
      getPlayerStats p = .error .PlayerNotFound) := by
  constructor <;> intro h <;>
    simp [joinGame, fightMonster, heal, execOp, stepOp, getEncryptedBalance,
      getEncryptedHealth, getPlayerStats, Except.map, h]

/-- Witness for C5 at a joined and at an unjoined record. -/
theorem precondition_failures_witness :
    (joinGame joinedPlayer = .error .AlreadyJoined ∧
      execOp joinedPlayer .join = joinedPlayer) ∧
    (fightMonster emptyPlayer 0 = .error .NotJoined ∧
      heal emptyPlayer = .error .NotJoined ∧
      execOp emptyPlayer (.fight 0) = emptyPlayer ∧
      execOp emptyPlayer .heal = emptyPlayer ∧
      getEncryptedBalance emptyPlayer = .error .PlayerNotFound ∧
      getEncryptedHealth emptyPlayer = .error .PlayerNotFound ∧
      getPlayerStats emptyPlayer = .error .PlayerNotFound) :=
  ⟨(precondition_failures joinedPlayer 0).1 rfl,
   (precondition_failures emptyPlayer 0).2 rfl⟩

/-- The record after `joinGame` then `fightMonster` with scalar 0. -/
def foughtPlayer : Player :=
  { balance := ⟨1010, true, true⟩, health := ⟨10, true, true⟩, joined := true
    battles := 1, victories := 1, heals := 0 }

/-- The record after `joinGame` then one `heal` (a no-op heal: full health). -/
def healedPlayer : Player :=
  { balance := ⟨1000, true, true⟩, health := ⟨10, true, true⟩, joined := true
    battles := 0, victories := 0, heals := 1 }

lemma allowPlayer_balance_val (p : Player) : (allowPlayer p).balance.val = p.balance.val := rfl

lemma allowPlayer_health_val (p : Player) : (allowPlayer p).health.val = p.health.val := rfl

lemma allowPlayer_joined (p : Player) : (allowPlayer p).joined = p.joined := rfl

lemma allowPlayer_battles (p : Player) : (allowPlayer p).battles = p.battles := rfl

lemma allowPlayer_victories (p : Player) : (allowPlayer p).victories = p.victories := rfl

lemma allowPlayer_heals (p : Player) : (allowPlayer p).heals = p.heals := rfl

/-- On an even scalar, `fightMonster` is a victory with reward
`rand % 91 + 10` added homomorphically to the balance. -/
lemma fightMonster_even (p : Player) (rand : Nat) (hj : p.joined = true)
    (hv : rand % 2 = 0) :
    fightMonster p rand = .ok
      (allowPlayer
        { p with balance := FHE.add p.balance (FHE.asEuint32 (rand % 91 + 10))
                 victories := p.victories + 1
                 battles := p.battles + 1 },
       true, rand % 91 + 10) := by
  unfold fightMonster
  rw [hj]
  simp [hv, REWARD_SPREAD, MIN_REWARD]

/-- On an odd scalar, `fightMonster` is a defeat: the health is reduced by
the clamped subtraction and the reward is 0. -/
lemma fightMonster_odd (p : Player) (rand : Nat) (hj : p.joined = true)
    (hv : rand % 2 = 1) :
    fightMonster p rand = .ok
      (allowPlayer
        { p with health := reduceHealth p.health (FHE.asEuint8 DAMAGE)
                 battles := p.battles + 1 },
       false, 0) := by
  unfold fightMonster
  rw [hj]
  have : (rand % 2 == 0) = false := by simp [hv]
  simp [this]

/-- Decoded value of the clamped health subtraction. -/
lemma reduceHealth_val (h : EUint 8) (hh : h.val < 2 ^ 8) :
    (reduceHealth h (FHE.asEuint8 DAMAGE)).val = h.val - 1 := by
  simp only [reduceHealth, FHE.le, FHE.select, FHE.sub, FHE.asEuint8, DAMAGE]
  split_ifs <;> simp_all <;> omega

/-- Decoded values and permission flags are fully determined; this
predicate states both grants on both ciphertexts of a record. -/
def FullyGranted (p : Player) : Prop :=
  p.balance.allowedThis = true ∧ p.balance.allowedSender = true ∧
  p.health.allowedThis = true ∧ p.health.allowedSender = true

/-- C8: every successful mutating call ends by regranting the contract
and the caller permission on both the balance and health ciphertexts. -/
theorem allowances_regranted (p a b c : Player) (rand : Nat) (v : Bool) (r : Nat) :
    (joinGame p = .ok a → FullyGranted a) ∧
    (fightMonster p rand = .ok (b, v, r) → FullyGranted b) ∧
    (heal p = .ok c → FullyGranted c) := by
  refine ⟨?_, ?_, ?_⟩ <;> intro hcall
  · by_cases hj : p.joined = true
    · simp [joinGame, hj] at hcall
    · have hj' : p.joined = false := by simpa using hj
      unfold joinGame at hcall
      rw [hj'] at hcall
      simp only [Bool.false_eq_true, if_false, Except.ok.injEq] at hcall
      rw [← hcall]
      exact ⟨rfl, rfl, rfl, rfl⟩
  · by_cases hj : p.joined = true
    · rcases Nat.mod_two_eq_zero_or_one rand with hv | hv
      · rw [fightMonster_even p rand hj hv] at hcall
        simp only [Except.ok.injEq, Prod.mk.injEq] at hcall
        rw [← hcall.1]
        exact ⟨rfl, rfl, rfl, rfl⟩
      · rw [fightMonster_odd p rand hj hv] at hcall
        simp only [Except.ok.injEq, Prod.mk.injEq] at hcall
        rw [← hcall.1]
        exact ⟨rfl, rfl, rfl, rfl⟩
    · have hj' : p.joined = false := by simpa using hj
      simp [fightMonster, hj'] at hcall
  · by_cases hj : p.joined = true
    · unfold heal at hcall
      rw [hj] at hcall
      simp only [Bool.not_true, Bool.false_eq_true, if_false, Except.ok.injEq] at hcall
      rw [← hcall]
      exact ⟨rfl, rfl, rfl, rfl⟩
    · have hj' : p.joined = false := by simpa using hj
      simp [heal, hj'] at hcall

/-- Witness for C8 at concrete calls of all three mutating operations. -/
theorem allowances_regranted_witness :
    FullyGranted joinedPlayer ∧ FullyGranted foughtPlayer ∧ FullyGranted healedPlayer :=
  ⟨(allowances_regranted emptyPlayer joinedPlayer foughtPlayer healedPlayer 0 true 10).1 rfl,
   (allowances_regranted joinedPlayer joinedPlayer foughtPlayer healedPlayer 0 true 10).2.1 rfl,
   (allowances_regranted joinedPlayer joinedPlayer foughtPlayer healedPlayer 0 true 10).2.2 rfl⟩

/-- C10: `fightMonster` only touches the field matching its outcome — on
victory the decoded health is unchanged, on defeat the decoded balance is
unchanged — and it never changes the `joined` flag or the `heals`
counter; `heal` never changes the `joined` flag. -/
theorem fight_heal_frame (p p' q : Player) (rand : Nat) (v : Bool) (r : Nat) :
    (fightMonster p rand = .ok (p', v, r) →
      (v = true → p'.health.val = p.health.val) ∧
      (v = false → p'.balance.val = p.balance.val) ∧
      p'.joined = p.joined ∧ p'.heals = p.heals) ∧
    (heal p = .ok q → q.joined = p.joined) := by
  constructor <;> intro hcall
  · by_cases hj : p.joined = true
    · rcases Nat.mod_two_eq_zero_or_one rand with hv | hv
      · rw [fightMonster_even p rand hj hv] at hcall
        simp only [Except.ok.injEq, Prod.mk.injEq] at hcall
        obtain ⟨hp, hv', hr⟩ := hcall
        subst hp hv'
        refine ⟨fun _ => rfl, fun h => by simp at h, rfl, rfl⟩
      · rw [fightMonster_odd p rand hj hv] at hcall
        simp only [Except.ok.injEq, Prod.mk.injEq] at hcall
        obtain ⟨hp, hv', hr⟩ := hcall
        subst hp hv'
        refine ⟨fun h => by simp at h, fun _ => rfl, rfl, rfl⟩
    · have hj' : p.joined = false := by simpa using hj
      simp [fightMonster, hj'] at hcall
  · by_cases hj : p.joined = true
    · unfold heal at hcall
      rw [hj] at hcall
      simp only [Bool.not_true, Bool.false_eq_true, if_false, Except.ok.injEq] at hcall
      rw [← hcall]
      simp [allowPlayer, hj]
    · have hj' : p.joined = false := by simpa using hj
      simp [heal, hj'] at hcall

/-- Witness for C10 at a concrete victorious fight and a concrete heal. -/
theorem fight_heal_frame_witness :
    ((true = true → foughtPlayer.health.val = joinedPlayer.health.val) ∧
      (true = false → foughtPlayer.balance.val = joinedPlayer.balance.val) ∧
      foughtPlayer.joined = joinedPlayer.joined ∧
      foughtPlayer.heals = joinedPlayer.heals) ∧
    healedPlayer.joined = joinedPlayer.joined :=
  ⟨(fight_heal_frame joinedPlayer foughtPlayer healedPlayer 0 true 10).1 rfl,
   (fight_heal_frame joinedPlayer foughtPlayer healedPlayer 0 true 10).2 rfl⟩

/-- The inductive invariant maintained by every transaction: decoded
health clamped to the maximum, decoded balance within the 32-bit domain,
and victories bounded by battles. -/
def Inv (p : Player) : Prop :=
  p.health.val ≤ MAX_HEALTH ∧ p.balance.val < 2 ^ 32 ∧ p.victories ≤ p.battles

lemma inv_empty : Inv emptyPlayer := by
  refine ⟨?_, ?_, ?_⟩ <;> norm_num [emptyPlayer, MAX_HEALTH]

lemma inv_execOp (p : Player) (op : Op) (h : Inv p) : Inv (execOp p op) := by
  obtain ⟨hh, hb, hv⟩ := h
  by_cases hj : p.joined = true
  · cases op with
    | join =>
      simp only [execOp, stepOp, joinGame, hj, if_true]
      exact ⟨hh, hb, hv⟩
    | fight rand =>
      rcases Nat.mod_two_eq_zero_or_one rand with hr | hr
      · simp only [execOp, stepOp, fightMonster_even p rand hj hr, Except.map,
          allowPlayer, FHE.allow, FHE.allowThis, FHE.add, FHE.asEuint32, Inv]
        refine ⟨hh, ?_, by omega⟩
        exact Nat.mod_lt _ (by norm_num)
      · simp only [execOp, stepOp, fightMonster_odd p rand hj hr, Except.map,
          allowPlayer, FHE.allow, FHE.allowThis, reduceHealth, FHE.le, FHE.select,
          FHE.sub, FHE.asEuint8, DAMAGE, Inv, MAX_HEALTH]
        refine ⟨?_, hb, by omega⟩
        simp only [MAX_HEALTH] at hh
        split_ifs <;> simp_all <;> omega
    | heal =>
      unfold execOp stepOp heal
      rw [hj]
      simp only [Bool.not_true, Bool.false_eq_true, if_false]
      simp only [allowPlayer, FHE.allow, FHE.allowThis, FHE.select, FHE.and, FHE.lt,
        FHE.ge, FHE.add, FHE.sub, FHE.asEuint8, FHE.asEuint32, clampHealth, FHE.gt,
        Inv, MAX_HEALTH, HEAL_COST]
      simp only [MAX_HEALTH] at hh
      refine ⟨?_, ?_, by omega⟩ <;> split_ifs <;> simp_all <;> omega
  · have hj' : p.joined = false := by simpa using hj
    cases op <;>
      simp only [execOp, stepOp, joinGame, fightMonster, heal, hj', Bool.not_false,
        if_true, Bool.false_eq_true, if_false, Except.map] <;>
      first
        | exact ⟨hh, hb, hv⟩
        | (refine ⟨?_, ?_, ?_⟩ <;> norm_num [allowPlayer, FHE.allow, FHE.allowThis,
            FHE.asEuint32, FHE.asEuint8, STARTING_COINS, MAX_HEALTH])

lemma inv_execOps (ops : List Op) (p : Player) (h : Inv p) : Inv (execOps p ops) := by
  induction ops generalizing p with
  | nil => exact h
  | cons op ops ih => exact ih (execOp p op) (inv_execOp p op h)

lemma reachable_inv (p : Player) (h : Reachable p) : Inv p := by
  obtain ⟨ops, rfl⟩ := h
  exact inv_execOps ops emptyPlayer inv_empty

/-- C2: in every reachable record state the decoded health lies in
`[0, MAX_HEALTH]`. -/
theorem health_invariant (p : Player) (h : Reachable p) :
    0 ≤ p.health.val ∧ p.health.val ≤ MAX_HEALTH :=
  ⟨Nat.zero_le _, (reachable_inv p h).1⟩

/-- Witness for C2 on a concrete reachable state (join, a defeat, a heal). -/
theorem health_invariant_witness :
    0 ≤ (execOps emptyPlayer [Op.join, Op.fight 1, Op.heal]).health.val ∧
      (execOps emptyPlayer [Op.join, Op.fight 1, Op.heal]).health.val ≤ MAX_HEALTH :=
  health_invariant _ ⟨[Op.join, Op.fight 1, Op.heal], rfl⟩

/-- C9: in every reachable record state `victories ≤ battles`. -/
theorem victories_le_battles (p : Player) (h : Reachable p) :
    p.victories ≤ p.battles :=
  (reachable_inv p h).2.2

/-- Witness for C9 on a concrete reachable state with one victory and one
defeat. -/
theorem victories_le_battles_witness :
    (execOps emptyPlayer [Op.join, Op.fight 0, Op.fight 1]).victories ≤
      (execOps emptyPlayer [Op.join, Op.fight 0, Op.fight 1]).battles :=
  victories_le_battles _ ⟨[Op.join, Op.fight 0, Op.fight 1], rfl⟩

/-- C6: on every reachable state, a `heal` call either debits exactly the
heal cost — and only when the balance covers it and there is room to heal,
so the subtraction never underflows — or leaves the decoded balance
unchanged; the decoded balance can never go negative. -/
theorem balance_no_underflow (p p' : Player) (hr : Reachable p)
    (hcall : heal p = .ok p') :
    (p.health.val < MAX_HEALTH ∧ HEAL_COST ≤ p.balance.val ∧
      p'.balance.val = p.balance.val - HEAL_COST ∧
      p'.balance.val + HEAL_COST = p.balance.val) ∨
    p'.balance.val = p.balance.val := by
  have hj : p.joined = true := by
    by_contra hj
    have hj' : p.joined = false := by simpa using hj
    simp [heal, hj'] at hcall
  obtain ⟨q, hq, _, _, _, _, h5⟩ := heal_char p hj (reachable_inv p hr).2.1
  rw [hcall] at hq
  injection hq with hq
  subst hq
  simp only [MAX_HEALTH, HEAL_COST]
  rcases h5 with ⟨a, b, c, d⟩ | ⟨a, b, c⟩
  · exact Or.inl ⟨a, b, c, by omega⟩
  · exact Or.inr b

/-- Witness for C6: a heal on the reachable full-health state leaves the
balance unchanged. -/
theorem balance_no_underflow_witness :
    (healedPlayer.health.val < MAX_HEALTH ∧ HEAL_COST ≤ healedPlayer.balance.val ∧
      (execOps emptyPlayer [Op.join, Op.heal, Op.heal]).balance.val
        = healedPlayer.balance.val - HEAL_COST ∧
      (execOps emptyPlayer [Op.join, Op.heal, Op.heal]).balance.val + HEAL_COST
        = healedPlayer.balance.val) ∨
    (execOps emptyPlayer [Op.join, Op.heal, Op.heal]).balance.val
      = healedPlayer.balance.val :=
  balance_no_underflow healedPlayer _ ⟨[Op.join, Op.heal], rfl⟩ rfl

lemma execOp_joined_mono (p : Player) (op : Op) (h : p.joined = true) :
    (execOp p op).joined = true := by
  cases op with
  | join => simp [execOp, stepOp, joinGame, h]
  | fight rand =>
    rcases Nat.mod_two_eq_zero_or_one rand with hr | hr
    · simp [execOp, stepOp, fightMonster_even p rand h hr, Except.map, allowPlayer, h]
    · simp [execOp, stepOp, fightMonster_odd p rand h hr, Except.map, allowPlayer, h]
  | heal =>
    unfold execOp stepOp heal
    rw [h]
    simp [allowPlayer, h]

lemma execOps_joined_mono (ops : List Op) (p : Player) (h : p.joined = true) :
    (execOps p ops).joined = true := by
  induction ops generalizing p with
  | nil => exact h
  | cons op ops ih => exact ih (execOp p op) (execOp_joined_mono p op h)

/-- C7: `hasJoined` is false on the default record, a false-to-true flip
can only come from a successful `joinGame`, and once true it stays true
under every further transaction — no operation clears the flag. -/
theorem hasJoined_monotone (p : Player) (op : Op) (ops : List Op) :
    hasJoined emptyPlayer = false ∧
    (hasJoined p = true → hasJoined (execOp p op) = true) ∧
    (hasJoined p = false → hasJoined (execOp p op) = true →
      op = .join ∧ joinGame p = .ok (execOp p op)) ∧
    (hasJoined p = true → hasJoined (execOps p ops) = true) := by
  refine ⟨rfl, ?_, ?_, ?_⟩
  · exact fun h => execOp_joined_mono p op h
  · intro h0 h1
    cases op with
    | join =>
      refine ⟨rfl, ?_⟩
      have h0' : p.joined = false := h0
      simp [execOp, stepOp, joinGame, h0']
    | fight rand =>
      exfalso
      have h0' : p.joined = false := h0
      simp [execOp, stepOp, fightMonster, h0', hasJoined, Except.map] at h1
    | heal =>
      exfalso
      have h0' : p.joined = false := h0
      simp [execOp, stepOp, heal, h0', hasJoined, Except.map] at h1
  · exact fun h => execOps_joined_mono ops p h

/-- Witness for C7 on concrete records and transactions. -/
theorem hasJoined_monotone_witness :
    hasJoined emptyPlayer = false ∧
    hasJoined (execOp joinedPlayer Op.heal) = true ∧
    (Op.join = Op.join ∧ joinGame emptyPlayer = .ok (execOp emptyPlayer Op.join)) ∧
    hasJoined (execOps joinedPlayer [Op.fight 0]) = true :=
  ⟨(hasJoined_monotone joinedPlayer Op.heal []).1,
   (hasJoined_monotone joinedPlayer Op.heal []).2.1 rfl,
   (hasJoined_monotone emptyPlayer Op.join []).2.2.1 rfl rfl,
   (hasJoined_monotone joinedPlayer Op.heal [Op.fight 0]).2.2.2 rfl⟩

/-- C3 (amended): `fightMonster` increments `battles` by exactly 1,
declares victory iff the scalar is even, increments `victories` iff
victory; on victory the reward is `(scalar mod 91) + 10 ∈ [10, 100]` and
the decoded balance becomes `(balance + reward) mod 2^32` — equal to
`balance + reward` (hence within `[balance+10, balance+100]`) whenever the
32-bit addition does not wrap; on defeat the decoded health becomes
`max(0, health - 1)`. -/
theorem fightMonster_spec (p : Player) (rand : Nat) (hj : p.joined = true)
    (hb : p.balance.val < 2 ^ 32) (hh : p.health.val < 2 ^ 8) :
    ∃ p' v r, fightMonster p rand = .ok (p', v, r) ∧
      p'.battles = p.battles + 1 ∧
      (v = true ↔ rand % 2 = 0) ∧
      (v = true → p'.victories = p.victories + 1 ∧
        r = rand % REWARD_SPREAD + MIN_REWARD ∧
        MIN_REWARD ≤ r ∧ r ≤ 100 ∧
        p'.balance.val = (p.balance.val + r) % 2 ^ 32 ∧
        (p.balance.val + 100 < 2 ^ 32 → p'.balance.val = p.balance.val + r ∧
          p.balance.val + MIN_REWARD ≤ p'.balance.val ∧
          p'.balance.val ≤ p.balance.val + 100)) ∧
      (v = false → p'.victories = p.victories ∧ r = 0 ∧
        p'.balance.val = p.balance.val ∧
        (p'.health.val : Int) = max 0 ((p.health.val : Int) - 1)) := by
  rcases Nat.mod_two_eq_zero_or_one rand with hr | hr
  · have hbal : (allowPlayer
        { p with balance := FHE.add p.balance (FHE.asEuint32 (rand % 91 + 10))
                 victories := p.victories + 1
                 battles := p.battles + 1 }).balance.val
        = (p.balance.val + (rand % 91 + 10)) % 2 ^ 32 := by
      have h1 : (allowPlayer
          { p with balance := FHE.add p.balance (FHE.asEuint32 (rand % 91 + 10))
                   victories := p.victories + 1
                   battles := p.battles + 1 }).balance.val
          = (p.balance.val + (rand % 91 + 10) % 2 ^ 32) % 2 ^ 32 := rfl
      rw [h1, Nat.mod_eq_of_lt (show rand % 91 + 10 < 2 ^ 32 by omega)]
    refine ⟨_, _, _, fightMonster_even p rand hj hr, ?_, ?_, ?_, ?_⟩
    · exact rfl
    · simp [hr]
    · intro _
      refine ⟨rfl, by simp [REWARD_SPREAD, MIN_REWARD], by simp [MIN_REWARD], by omega,
        hbal, ?_⟩
      intro hsmall
      rw [hbal]
      simp only [MIN_REWARD]
      have hlt : p.balance.val + (rand % 91 + 10) < 2 ^ 32 := by omega
      rw [Nat.mod_eq_of_lt hlt]
      exact ⟨rfl, by omega, by omega⟩
    · intro h
      simp at h
  · refine ⟨_, _, _, fightMonster_odd p rand hj hr, ?_, ?_, ?_, ?_⟩
    · exact rfl
    · simp [hr]
    · intro h
      simp at h
    · intro _
      refine ⟨rfl, rfl, rfl, ?_⟩
      have hval : (allowPlayer
          { p with health := reduceHealth p.health (FHE.asEuint8 DAMAGE)
                   battles := p.battles + 1 }).health.val
          = (reduceHealth p.health (FHE.asEuint8 DAMAGE)).val := rfl
      rw [hval, reduceHealth_val p.health hh]
      rcases Nat.eq_zero_or_pos p.health.val with h0 | h0
      · simp [h0]
      · rw [max_eq_right (by omega : (0 : Int) ≤ (p.health.val : Int) - 1)]
        omega

/-- Witness for the amended C3 at a concrete joined record with an even
scalar. -/
theorem fightMonster_spec_witness :
    ∃ p' v r, fightMonster joinedPlayer 0 = .ok (p', v, r) ∧
      p'.battles = joinedPlayer.battles + 1 ∧
      (v = true ↔ 0 % 2 = 0) ∧
      (v = true → p'.victories = joinedPlayer.victories + 1 ∧
        r = 0 % REWARD_SPREAD + MIN_REWARD ∧
        MIN_REWARD ≤ r ∧ r ≤ 100 ∧
        p'.balance.val = (joinedPlayer.balance.val + r) % 2 ^ 32 ∧
        (joinedPlayer.balance.val + 100 < 2 ^ 32 →
          p'.balance.val = joinedPlayer.balance.val + r ∧
          joinedPlayer.balance.val + MIN_REWARD ≤ p'.balance.val ∧
          p'.balance.val ≤ joinedPlayer.balance.val + 100)) ∧
      (v = false → p'.victories = joinedPlayer.victories ∧ r = 0 ∧
        p'.balance.val = joinedPlayer.balance.val ∧
        (p'.health.val : Int) = max 0 ((joinedPlayer.health.val : Int) - 1)) :=
  fightMonster_spec joinedPlayer 0 rfl (by decide) (by decide)

/-- The record after joining and then winning `n` consecutive fights with
scalar 0 (reward 10 each time). -/
def fightState (n : Nat) : Player :=
  { balance := ⟨(1000 + 10 * n) % 2 ^ 32, true, true⟩, health := ⟨10, true, true⟩
    joined := true, battles := n, victories := n, heals := 0 }

lemma execOp_fightState (n : Nat) :
    execOp (fightState n) (.fight 0) = fightState (n + 1) := by
  simp only [execOp, stepOp, fightMonster_even (fightState n) 0 rfl rfl, Except.map]
  simp only [allowPlayer, FHE.allow, FHE.allowThis, FHE.add, FHE.asEuint32, fightState]
  simp only [Player.mk.injEq, EUint.mk.injEq, and_true, true_and, and_self]
  omega

lemma execOps_fightState (n k : Nat) :
    execOps (fightState k) (List.replicate n (Op.fight 0)) = fightState (k + n) := by
  induction n generalizing k with
  | zero => simp [execOps]
  | succ n ih =>
    rw [List.replicate_succ]
    show execOps (execOp (fightState k) (Op.fight 0)) (List.replicate n (Op.fight 0)) = _
    rw [execOp_fightState k, ih (k + 1)]
    congr 1
    omega

lemma fightState_reachable (n : Nat) : Reachable (fightState n) := by
  refine ⟨Op.join :: List.replicate n (Op.fight 0), ?_⟩
  show execOps (execOp emptyPlayer Op.join) (List.replicate n (Op.fight 0)) = _
  have h0 : execOp emptyPlayer Op.join = fightState 0 := by decide
  rw [h0, execOps_fightState n 0]
  congr 1
  omega

/-- Counterexample to C3 as stated: on the reachable record holding
4294967290 coins, a victorious fight with reward 10 wraps the 32-bit
balance around to 4, so the decoded balance after is not at least the
balance before plus 10. -/
theorem fightMonster_wrap_counterexample :
    Reachable (fightState 429496629) ∧
    (fightState 429496629).joined = true ∧
    (fightState 429496629).balance.val = 4294967290 ∧
    ∃ p' v r, fightMonster (fightState 429496629) 0 = .ok (p', v, r) ∧
      v = true ∧ r = MIN_REWARD ∧ p'.balance.val = 4 ∧
      ¬((fightState 429496629).balance.val + MIN_REWARD ≤ p'.balance.val) := by
  refine ⟨fightState_reachable _, rfl, by decide, ?_⟩
  refine ⟨_, _, _, fightMonster_even _ 0 rfl rfl, rfl, rfl, ?_, ?_⟩
  · decide
  · decide

end HiddenOutcomeGame
